import Mathlib

/-!
Shallow embedding of the iron-pipeline request-dispatch core.

The crate (as wired from `src/lib.rs` through `src/middleware/mod.rs`) consists of:
  * `Pipeline` — an ordered list of middleware; `invoke_handler` walks it by index,
    handing each middleware a continuation bound to `index + 1`
    (`src/lib.rs`, `Pipeline::invoke_handler`, `PipelineNext::process`);
  * `Handle` / `HandleNext` — terminal and wrapping middleware adapters
    (`src/middleware/handle.rs`);
  * `Fork` — a middleware owning a sub-pipeline and a predicate
    (`src/middleware/fork.rs`): `ForkOnFn` wraps an arbitrary predicate,
    `ForkOnPath` holds parsed path segments, tests them with `slice_starts_with`,
    and on a match strips the prefix from the live path while stashing the
    pre-rewrite URL in the `OriginalUrl` extension slot (insert-if-absent);
  * `parse_path` — construction-time parsing of a path specification into
    non-empty segments.

Modelling conventions: the request is threaded by value (Rust mutates it in
place through `&mut`); a request's URL is represented by its path-segment list
(`req.url.path()` in the source); the `extensions` typemap entry for
`OriginalUrl` is the `originalUrl : Option (List String)` field; `iron::Response`
is opaque to the core, so it is modelled as a record with enough room for the
test probes used in the concrete scenarios; the join/`set_path`/re-parse
round-trip through the external `url` crate in `ForkOnPath::modify_request`
(`fork.rs` lines 96-104) is modelled at the segment level as dropping the
matched prefix, which is the segment-list content of that rewrite.
-/

deriving instance DecidableEq for Except

namespace IronPipeline

/-- A request: method, the live URL path as segments (`req.url.path()`), and the
`OriginalUrl` extension slot (`req.extensions` entry keyed by `OriginalUrl`). -/
structure Request where
  method : String
  path : List String
  originalUrl : Option (List String)
deriving DecidableEq, Repr

/-- An opaque response; `status` and the two `seen` fields let concrete probe
handlers record what they observed of the request. -/
structure Response where
  status : Nat
  seenPath : List String
  seenOriginal : Option (List String)
deriving DecidableEq, Repr

/-- `Error` from `src/lib.rs`: the only error the pipeline itself raises. -/
inductive PipelineError where
  | noHandler
deriving DecidableEq, Repr

/-- `iron::status::InternalServerError`. -/
def internalServerError : Nat := 500

/-- `IronError::new(err, status)`: an error value paired with a status classification. -/
structure IronError where
  err : PipelineError
  status : Nat
deriving DecidableEq, Repr

/-- `IronResult<Response>`. -/
abbrev IronResult := Except IronError Response

/-- The state-threaded result of one middleware invocation: the `IronResult`
together with the request as left after the (in-place, in Rust) mutation. -/
abbrev RState := IronResult × Request

/-- The middleware contract (`PipelineMiddleware` / `Middleware` in the source):
`process(req, next)`, with the continuation passed as a function. -/
abbrev Middleware := Request → (Request → RState) → RState

/-- `Pipeline`: the ordered `handlers` vector. -/
abbrev Pipeline := List Middleware

/-- `Pipeline::invoke_handler`: if a middleware exists at `index`, invoke it with a
continuation bound to `index + 1` (`PipelineNext(self, index + 1)`); otherwise
fail with `NoHandler` at `InternalServerError`. -/
def invoke_handler (p : Pipeline) (index : Nat) (req : Request) : RState :=
  if h : index < p.length then
    (p.get ⟨index, h⟩) req (fun r => invoke_handler p (index + 1) r)
  else
    (Except.error ⟨PipelineError.noHandler, internalServerError⟩, req)
termination_by p.length - index
decreasing_by simp_wf; omega

/-- `Handler for Pipeline`: dispatch starts at index 0. -/
def Pipeline.handle (p : Pipeline) (req : Request) : RState :=
  invoke_handler p 0 req

/-- `Handle` (`src/middleware/handle.rs`): a terminal handler adapted into the
middleware contract by ignoring the continuation. -/
def Handle (f : Request → RState) : Middleware :=
  fun req _ => f req

/-- `HandleNext` (`src/middleware/handle.rs`): a wrapping middleware from a
function of request and continuation. -/
def HandleNext (f : Request → (Request → RState) → RState) : Middleware :=
  fun req next => f req next

/-- `slice_starts_with` (`src/middleware/fork.rs` lines 108-116): false when the
prefix is longer than the input, otherwise compare zipped elements. -/
def slice_starts_with (input : List String) (pfx : List String) : Bool :=
  if pfx.length > input.length then
    false
  else
    (input.zip pfx).all (fun ab => ab.1 == ab.2)

/-- `ParsePathError` (`src/middleware/fork.rs`). -/
inductive ParsePathError where
  | noLeadingSlash
  | pathEmpty
deriving DecidableEq, Repr

/-- `parse_path` (`src/middleware/fork.rs` lines 32-48): require a leading `/`,
strip leading slashes (`trim_left_matches("/")`), split on `/`, drop empty
segments, and reject an empty segment list. Strings are handled through their
character lists so that the definition evaluates by kernel reduction;
`starts_with("/")` is the first character being `/`, and `split("/")` is
`List.splitOn '/'` on the characters. -/
def parse_path (path : String) : Except ParsePathError (List String) :=
  if path.toList.head? ≠ some '/' then
    Except.error ParsePathError.noLeadingSlash
  else
    let segments :=
      (((path.toList.dropWhile (fun c => c = '/')).splitOn '/').map
        (fun cs => String.mk cs)).filter (fun s => s.length > 0)
    if segments.length = 0 then
      Except.error ParsePathError.pathEmpty
    else
      Except.ok segments

/-- The two `ForkHandler` implementations: `ForkOnFn` (arbitrary predicate) and
`ForkOnPath` (parsed path segments). -/
inductive ForkHandler where
  | onFn (pred : Request → Bool)
  | onPath (segments : List String)

/-- `ForkHandler::should_fork`: `ForkOnFn` applies the predicate, `ForkOnPath`
tests `slice_starts_with(req.url.path(), path_segments)`. -/
def should_fork : ForkHandler → Request → Bool
  | ForkHandler.onFn pred, req => pred req
  | ForkHandler.onPath segments, req => slice_starts_with req.path segments

/-- `ForkHandler::modify_request`: a nop for `ForkOnFn`; for `ForkOnPath`, strip
the matched prefix from the live path and stash the pre-rewrite URL in the
`OriginalUrl` slot with insert-if-absent (`entry::<OriginalUrl>().or_insert`)
semantics — the stash happens before the URL is overwritten, so it stores the
pre-rewrite path. -/
def modify_request : ForkHandler → Request → Request
  | ForkHandler.onFn _, req => req
  | ForkHandler.onPath segments, req =>
      { req with
        path := req.path.drop segments.length,
        originalUrl := some (req.originalUrl.getD req.path) }

/-- `Fork<P>(Pipeline, P)`: an owned sub-pipeline plus a fork handler. -/
structure Fork where
  sub_pipeline : Pipeline
  handler : ForkHandler

/-- `Middleware for Fork<P>::process` (`fork.rs` lines 187-201): if the handler
says to fork, modify the request and delegate to the sub-pipeline; otherwise
invoke the outer continuation. -/
def Fork.process (f : Fork) : Middleware :=
  fun req next =>
    if should_fork f.handler req then
      Pipeline.handle f.sub_pipeline (modify_request f.handler req)
    else
      next req

/-- `Fork::when`: wrap a predicate; the builder's result is the sub-pipeline. -/
def Fork.when (pred : Request → Bool) (sub : Pipeline) : Fork :=
  ⟨sub, ForkHandler.onFn pred⟩

/-- `Fork::when_path` (`fork.rs` lines 176-184): parse the path specification at
construction time; the source panics on a parse error (`unwrap`), modelled as
an `Except`. On success the fork stores the parsed segments. -/
def Fork.when_path (path : String) (sub : Pipeline) : Except ParsePathError Fork :=
  (parse_path path).map (fun segments => ⟨sub, ForkHandler.onPath segments⟩)

/-- A terminal probe used by concrete scenarios: records the live path and the
`OriginalUrl` slot as seen by the sub-pipeline, leaving the request unchanged. -/
def probe : Middleware :=
  Handle (fun req => (Except.ok ⟨200, req.path, req.originalUrl⟩, req))

/-- The inbound request of the spec's PathFork rewriting scenario:
`GET /path/1/example/path`, original-path slot unoccupied. -/
def reqPath1 : Request :=
  ⟨"GET", ["path", "1", "example", "path"], none⟩

/-- A delegating middleware that hands the request through unchanged. -/
def passThrough : Middleware :=
  HandleNext (fun req next => next req)

/-!
Helper lemmas about dispatch.  `invoke_handler` is defined by well-founded
recursion, so its defining equation is exposed as explicit lemmas, and the
cons/index-shift lemma turns index-based dispatch into structural recursion on
the handler list.
-/

theorem invoke_handler_at (p : Pipeline) (i : Nat) (req : Request) (h : i < p.length) :
    invoke_handler p i req = (p.get ⟨i, h⟩) req (fun r => invoke_handler p (i + 1) r) := by
  rw [invoke_handler]
  simp [h]

theorem invoke_handler_past (p : Pipeline) (i : Nat) (req : Request) (h : ¬ i < p.length) :
    invoke_handler p i req
      = (Except.error ⟨PipelineError.noHandler, internalServerError⟩, req) := by
  rw [invoke_handler]
  simp [h]

theorem invoke_handler_cons_succ (m : Middleware) (rest : Pipeline) :
    ∀ i req, invoke_handler (m :: rest) (i + 1) req = invoke_handler rest i req := by
  suffices hs : ∀ n i req, rest.length - i ≤ n →
      invoke_handler (m :: rest) (i + 1) req = invoke_handler rest i req by
    intro i req
    exact hs (rest.length - i) i req le_rfl
  intro n
  induction n with
  | zero =>
    intro i req hle
    have h1 : ¬ i < rest.length := by omega
    have h2 : ¬ i + 1 < (m :: rest).length := by simp; omega
    rw [invoke_handler_past _ _ _ h2, invoke_handler_past _ _ _ h1]
  | succ n ih =>
    intro i req hle
    by_cases h : i < rest.length
    · have h2 : i + 1 < (m :: rest).length := by simp; omega
      rw [invoke_handler_at _ _ _ h2, invoke_handler_at _ _ _ h]
      have hg : (m :: rest).get ⟨i + 1, h2⟩ = rest.get ⟨i, h⟩ := rfl
      have hc : (fun r => invoke_handler (m :: rest) (i + 1 + 1) r)
          = (fun r => invoke_handler rest (i + 1) r) := by
        funext r
        exact ih (i + 1) r (by omega)
      rw [hg, hc]
    · have h2 : ¬ i + 1 < (m :: rest).length := by simp; omega
      rw [invoke_handler_past _ _ _ h2, invoke_handler_past _ _ _ h]

theorem handle_nil (req : Request) :
    Pipeline.handle [] req
      = (Except.error ⟨PipelineError.noHandler, internalServerError⟩, req) := by
  rw [Pipeline.handle, invoke_handler_past]
  simp

theorem handle_cons (m : Middleware) (rest : Pipeline) (req : Request) :
    Pipeline.handle (m :: rest) req = m req (fun r => Pipeline.handle rest r) := by
  rw [Pipeline.handle, invoke_handler_at _ _ _ (by simp)]
  have hc : (fun r => invoke_handler (m :: rest) (0 + 1) r)
      = (fun r => Pipeline.handle rest r) := by
    funext r
    exact invoke_handler_cons_succ m rest 0 r
  rw [hc]
  rfl

/-- One step of `slice_starts_with` on two non-empty lists: compare the heads
and recurse on the tails. -/
theorem slice_starts_with_cons (b a : String) (s p : List String) :
    slice_starts_with (b :: s) (a :: p) = (b == a && slice_starts_with s p) := by
  unfold slice_starts_with
  simp only [List.length_cons, List.zip_cons_cons, List.all_cons]
  by_cases h : p.length > s.length
  · rw [if_pos (by omega), if_pos h]
    simp
  · rw [if_neg (by omega), if_neg h]

/-- A successful `parse_path` yields a non-empty list of non-empty segments:
the empty-segment filter and the final length check of the source. -/
theorem parse_path_ok_segments (path : String) (segs : List String)
    (h : parse_path path = Except.ok segs) :
    segs ≠ [] ∧ ∀ seg ∈ segs, 0 < seg.length := by
  rw [parse_path] at h
  split at h
  · cases h
  · dsimp only at h
    split at h
    · cases h
    · next hz =>
      cases h
      refine ⟨?_, ?_⟩
      · intro hnil
        rw [hnil] at hz
        simp at hz
      · intro seg hseg
        have := List.of_mem_filter hseg
        simpa using this

/-- Claim C1: for every prefix segment list `p` and request path segment list `s`,
the PathFork prefix test `slice_starts_with s p` succeeds if and only if `p` is
no longer than `s` and every segment of `p` equals the segment of `s` at the same
position; in particular a strictly longer prefix never matches, and an
equal-length prefix with all positions equal matches. -/
theorem c1_slice_starts_with_spec :
    ∀ (p s : List String),
      (slice_starts_with s p = true ↔
        (p.length ≤ s.length ∧ ∀ i, i < p.length → p.getD i "" = s.getD i ""))
      ∧ (s.length < p.length → slice_starts_with s p = false)
      ∧ (p.length = s.length → (∀ i, i < p.length → p.getD i "" = s.getD i "") →
          slice_starts_with s p = true) := by
  have main : ∀ (p s : List String),
      slice_starts_with s p = true ↔
        (p.length ≤ s.length ∧ ∀ i, i < p.length → p.getD i "" = s.getD i "") := by
    intro p
    induction p with
    | nil =>
      intro s
      simp [slice_starts_with]
    | cons a p ih =>
      intro s
      cases s with
      | nil =>
        simp [slice_starts_with]
      | cons b s =>
        rw [slice_starts_with_cons]
        constructor
        · intro h
          rw [Bool.and_eq_true] at h
          obtain ⟨hlen, hpos⟩ := (ih s).1 h.2
          have hab : b = a := by simpa using h.1
          refine ⟨by simpa using Nat.succ_le_succ hlen, ?_⟩
          intro i hi
          cases i with
          | zero => simpa using hab.symm
          | succ j =>
            simp only [List.getD_cons_succ]
            exact hpos j (by simpa using hi)
        · rintro ⟨hlen, hpos⟩
          have h0 : a = b := by simpa using hpos 0 (by simp)
          have hrest : slice_starts_with s p = true := by
            refine (ih s).2 ⟨by simpa using hlen, ?_⟩
            intro i hi
            simpa [List.getD_cons_succ] using hpos (i + 1) (by simp; omega)
          simp [h0, hrest]
  intro p s
  refine ⟨main p s, ?_, ?_⟩
  · intro hlt
    cases hsp : slice_starts_with s p with
    | false => rfl
    | true =>
      obtain ⟨hle, _⟩ := (main p s).1 hsp
      omega
  · intro heq hpos
    exact (main p s).2 ⟨by omega, hpos⟩

/-- Witness for C1 at the spec's examples: segments `["api","v2"]` match
`["api","v2","example","path"]`, and do not match the shorter `["api"]`. -/
theorem c1_slice_starts_with_spec_witness :
    slice_starts_with ["api", "v2", "example", "path"] ["api", "v2"] = true
    ∧ slice_starts_with ["api"] ["api", "v2"] = false :=
  ⟨(c1_slice_starts_with_spec ["api", "v2"] ["api", "v2", "example", "path"]).1.2
      ⟨by decide, by decide⟩,
    (c1_slice_starts_with_spec ["api", "v2"] ["api"]).2.1 (by decide)⟩

/-- Claim C5: `parse_path` maps `"/this/is/the/path"` to
`["this","is","the","path"]` and `"/hello//world"` to `["hello","world"]`;
`"this/is/the/path"` (no leading slash) and `"/"` (zero segments) are
construction-time errors. The failures happen when the fork is built:
`Fork::when_path` fails exactly when `parse_path` fails, and on success the
fork already holds the parsed segments, so no parsing remains for request
time. -/
theorem c5_parse_path_spec :
    parse_path "/this/is/the/path" = Except.ok ["this", "is", "the", "path"]
    ∧ parse_path "/hello//world" = Except.ok ["hello", "world"]
    ∧ parse_path "this/is/the/path" = Except.error ParsePathError.noLeadingSlash
    ∧ parse_path "/" = Except.error ParsePathError.pathEmpty
    ∧ (∀ (path : String) (sub : Pipeline) (e : ParsePathError),
        Fork.when_path path sub = Except.error e ↔ parse_path path = Except.error e)
    ∧ (∀ (path : String) (sub : Pipeline) (f : Fork),
        Fork.when_path path sub = Except.ok f →
          ∃ segs, parse_path path = Except.ok segs
            ∧ f = ⟨sub, ForkHandler.onPath segs⟩) := by
  refine ⟨by decide, by decide, by decide, by decide, ?_, ?_⟩
  · intro path sub e
    rw [Fork.when_path]
    cases parse_path path with
    | error e2 => simp [Except.map]
    | ok segs => simp [Except.map]
  · intro path sub f h
    rw [Fork.when_path] at h
    cases hp : parse_path path with
    | error e2 => rw [hp] at h; simp [Except.map] at h
    | ok segs =>
      rw [hp] at h
      simp [Except.map] at h
      exact ⟨segs, rfl, h.symm⟩

/-- Witness for C5's universally quantified parts, at the spec path `"/api/v2"`
and at the malformed path `"/"`. -/
theorem c5_parse_path_spec_witness :
    (Fork.when_path "/" [] = Except.error ParsePathError.pathEmpty
      ↔ parse_path "/" = Except.error ParsePathError.pathEmpty)
    ∧ (∃ segs, parse_path "/api/v2" = Except.ok segs
        ∧ (⟨[], ForkHandler.onPath ["api", "v2"]⟩ : Fork) = ⟨[], ForkHandler.onPath segs⟩) :=
  ⟨c5_parse_path_spec.2.2.2.2.1 "/" [] ParsePathError.pathEmpty,
    c5_parse_path_spec.2.2.2.2.2 "/api/v2" [] ⟨[], ForkHandler.onPath ["api", "v2"]⟩
      (by rw [Fork.when_path]; rfl)⟩

/-- Claim C10: every `Fork` built by `when_path` holds a non-empty segment list
whose segments are all non-empty strings, so the empty segment list — which
`slice_starts_with` accepts against every input — is unreachable through
`when_path`. -/
theorem c10_when_path_segments_invariant :
    (∀ (path : String) (sub : Pipeline) (f : Fork),
        Fork.when_path path sub = Except.ok f →
          ∃ segs, f.handler = ForkHandler.onPath segs
            ∧ segs ≠ [] ∧ ∀ seg ∈ segs, 0 < seg.length)
    ∧ (∀ input : List String, slice_starts_with input [] = true) := by
  constructor
  · intro path sub f h
    rw [Fork.when_path] at h
    cases hp : parse_path path with
    | error e => rw [hp] at h; simp [Except.map] at h
    | ok segs =>
      rw [hp] at h
      simp [Except.map] at h
      obtain ⟨hne, hpos⟩ := parse_path_ok_segments path segs hp
      exact ⟨segs, by rw [← h], hne, hpos⟩
  · intro input
    rw [slice_starts_with]
    simp

/-- Witness for C10 at the fork built on `"/api/v2"`. -/
theorem c10_when_path_segments_invariant_witness :
    ∃ segs, (Fork.mk [] (ForkHandler.onPath ["api", "v2"])).handler = ForkHandler.onPath segs
      ∧ segs ≠ [] ∧ ∀ seg ∈ segs, 0 < seg.length :=
  c10_when_path_segments_invariant.1 "/api/v2" [] ⟨[], ForkHandler.onPath ["api", "v2"]⟩
    (by rw [Fork.when_path]; rfl)

/-- Claim C2: when a PathFork's prefix matches, it delegates to the sub-chain on
the modified request, where the original-path slot is filled with the
pre-rewrite path only if it was unoccupied and the live path becomes exactly the
suffix after the matched prefix; for prefix `/path/1` and inbound
`/path/1/example/path` the sub-chain observes live path `example/path` with
original path `/path/1/example/path`; on a non-match the outer continuation is
invoked with the request unmodified. -/
theorem c2_path_fork_rewrite :
    (∀ (segs : List String) (sub : Pipeline) (req : Request) (next : Request → RState),
      (slice_starts_with req.path segs = true →
        Fork.process ⟨sub, ForkHandler.onPath segs⟩ req next
            = Pipeline.handle sub (modify_request (ForkHandler.onPath segs) req)
          ∧ (modify_request (ForkHandler.onPath segs) req).path = req.path.drop segs.length
          ∧ (req.originalUrl = none →
              (modify_request (ForkHandler.onPath segs) req).originalUrl = some req.path)
          ∧ (∀ u, req.originalUrl = some u →
              (modify_request (ForkHandler.onPath segs) req).originalUrl = some u))
      ∧ (slice_starts_with req.path segs = false →
          Fork.process ⟨sub, ForkHandler.onPath segs⟩ req next = next req))
    ∧ Pipeline.handle [Fork.process ⟨[probe], ForkHandler.onPath ["path", "1"]⟩] reqPath1
        = (Except.ok ⟨200, ["example", "path"], some ["path", "1", "example", "path"]⟩,
            ⟨"GET", ["example", "path"], some ["path", "1", "example", "path"]⟩) := by
  constructor
  · intro segs sub req next
    constructor
    · intro hmatch
      refine ⟨?_, rfl, ?_, ?_⟩
      · rw [Fork.process]
        simp only [should_fork, hmatch, if_pos]
      · intro hnone
        simp [modify_request, hnone]
      · intro u hu
        simp [modify_request, hu]
    · intro hmiss
      rw [Fork.process]
      simp only [should_fork, hmiss, Bool.false_eq_true, if_neg, ite_false]
  · simp [handle_cons, handle_nil, Fork.process, should_fork, modify_request,
      slice_starts_with, probe, Handle, reqPath1]

/-- Witness for C2: both branches instantiated at concrete requests — a match on
`/path/1` against `/path/1/example/path`, and a miss against `/api/v1/example`. -/
theorem c2_path_fork_rewrite_witness :
    (slice_starts_with ["path", "1", "example", "path"] ["path", "1"] = true
      ∧ (modify_request (ForkHandler.onPath ["path", "1"]) reqPath1).path
          = ["example", "path"])
    ∧ (slice_starts_with ["api", "v1", "example"] ["path", "1"] = false
      ∧ Fork.process ⟨[probe], ForkHandler.onPath ["path", "1"]⟩
          ⟨"GET", ["api", "v1", "example"], none⟩ (fun r => Pipeline.handle [] r)
        = Pipeline.handle [] ⟨"GET", ["api", "v1", "example"], none⟩) :=
  ⟨⟨by decide,
      ((c2_path_fork_rewrite.1 ["path", "1"] [probe] reqPath1
          (fun r => Pipeline.handle [] r)).1 (by decide)).2.1⟩,
    ⟨by decide,
      (c2_path_fork_rewrite.1 ["path", "1"] [probe]
          ⟨"GET", ["api", "v1", "example"], none⟩ (fun r => Pipeline.handle [] r)).2
        (by decide)⟩⟩

/-- Claim C3: once the original-path slot holds a value, no later or inner
PathFork's request modification overwrites it; in the nested scenario — an outer
fork on `/path/1` containing an inner fork on `/example`, inbound
`/path/1/example/path` — the innermost sub-chain sees live path `path` while the
original-path slot still holds `/path/1/example/path`. -/
theorem c3_original_path_first_wins :
    (∀ (h : ForkHandler) (req : Request) (u : List String),
        req.originalUrl = some u → (modify_request h req).originalUrl = some u)
    ∧ Pipeline.handle
        [Fork.process ⟨[Fork.process ⟨[probe], ForkHandler.onPath ["example"]⟩],
                       ForkHandler.onPath ["path", "1"]⟩] reqPath1
        = (Except.ok ⟨200, ["path"], some ["path", "1", "example", "path"]⟩,
            ⟨"GET", ["path"], some ["path", "1", "example", "path"]⟩) := by
  constructor
  · intro h req u hu
    cases h with
    | onFn pred => simpa [modify_request] using hu
    | onPath segs => simp [modify_request, hu]
  · simp [handle_cons, handle_nil, Fork.process, should_fork, modify_request,
      slice_starts_with, probe, Handle, reqPath1]

/-- Witness for C3: the inner fork's modification leaves the outer fork's stash
`/path/1/example/path` in place. -/
theorem c3_original_path_first_wins_witness :
    (modify_request (ForkHandler.onPath ["example"])
        ⟨"GET", ["example", "path"], some ["path", "1", "example", "path"]⟩).originalUrl
      = some ["path", "1", "example", "path"] :=
  c3_original_path_first_wins.1 (ForkHandler.onPath ["example"])
    ⟨"GET", ["example", "path"], some ["path", "1", "example", "path"]⟩
    ["path", "1", "example", "path"] rfl

/-- Claim C6: a Fork first evaluates its predicate on the request as it stands;
on true it returns the sub-chain's dispatch result and never invokes the outer
continuation (the result is independent of it), with any rewriting applied only
inside the matched branch; on false it returns the outer continuation's result
on the unmodified request, producing no error of its own. -/
theorem c6_fork_dispatch :
    ∀ (f : Fork) (req : Request) (next next2 : Request → RState),
      (should_fork f.handler req = true →
          Fork.process f req next
              = Pipeline.handle f.sub_pipeline (modify_request f.handler req)
            ∧ Fork.process f req next = Fork.process f req next2)
      ∧ (should_fork f.handler req = false →
          Fork.process f req next = next req) := by
  intro f req next next2
  constructor
  · intro hmatch
    rw [Fork.process, Fork.process]
    simp [hmatch]
  · intro hmiss
    rw [Fork.process]
    simp only [hmiss, Bool.false_eq_true, if_neg, ite_false]

/-- Witness for C6: the method predicate `method == "HEAD"` from the fork tests,
taken on a HEAD request (fork taken) and on a GET request (fall through). -/
theorem c6_fork_dispatch_witness :
    (Fork.process (Fork.when (fun r => r.method == "HEAD") [probe])
        ⟨"HEAD", [], none⟩ (fun r => Pipeline.handle [] r)
      = Pipeline.handle [probe]
          (modify_request (ForkHandler.onFn (fun r => r.method == "HEAD")) ⟨"HEAD", [], none⟩))
    ∧ (Fork.process (Fork.when (fun r => r.method == "HEAD") [probe])
        ⟨"GET", [], none⟩ (fun r => Pipeline.handle [] r)
      = Pipeline.handle [] ⟨"GET", [], none⟩) :=
  ⟨((c6_fork_dispatch (Fork.when (fun r => r.method == "HEAD") [probe])
      ⟨"HEAD", [], none⟩ (fun r => Pipeline.handle [] r)
      (fun r => Pipeline.handle [] r)).1 (by decide)).1,
    (c6_fork_dispatch (Fork.when (fun r => r.method == "HEAD") [probe])
      ⟨"GET", [], none⟩ (fun r => Pipeline.handle [] r)
      (fun r => Pipeline.handle [] r)).2 (by decide)⟩

/-- Claim C4: dispatching on an empty chain, or on a chain whose every
middleware delegates to its continuation, yields the `NoHandler` failure with
the server-error (500) classification; and `NoHandler` is the only failure the
chain itself can generate (the pipeline's error type has no other value). -/
theorem c4_exhaustion_no_handler :
    (∀ req, Pipeline.handle [] req
        = (Except.error ⟨PipelineError.noHandler, internalServerError⟩, req))
    ∧ (∀ (p : Pipeline), (∀ m ∈ p, ∀ req k, ∃ r, m req k = k r) →
        ∀ req, ∃ req2, Pipeline.handle p req
            = (Except.error ⟨PipelineError.noHandler, internalServerError⟩, req2))
    ∧ (∀ e : PipelineError, e = PipelineError.noHandler) := by
  refine ⟨handle_nil, ?_, ?_⟩
  · intro p
    induction p with
    | nil =>
      intro _ req
      exact ⟨req, handle_nil req⟩
    | cons m rest ih =>
      intro hall req
      obtain ⟨r, hr⟩ := hall m (by simp) req (fun r => Pipeline.handle rest r)
      rw [handle_cons, hr]
      exact ih (fun m2 hm2 => hall m2 (by simp [hm2])) r
  · intro e
    cases e
    rfl

/-- Witness for C4: a one-element chain of the pass-through delegator exhausts
into `NoHandler`. -/
theorem c4_exhaustion_no_handler_witness :
    ∃ req2, Pipeline.handle [passThrough] reqPath1
      = (Except.error ⟨PipelineError.noHandler, internalServerError⟩, req2) :=
  c4_exhaustion_no_handler.2.1 [passThrough]
    (by
      intro m hm req k
      rw [List.mem_singleton] at hm
      subst hm
      exact ⟨req, rfl⟩)
    reqPath1

/-- Claim C7: when a middleware exists at `index`, dispatch invokes its
`process` with a continuation bound to `index + 1` and returns its result
verbatim; invoking that continuation re-enters dispatch at `index + 1`. -/
theorem c7_dispatch_step :
    ∀ (p : Pipeline) (i : Nat) (req : Request) (m : Middleware),
      p.get? i = some m →
      invoke_handler p i req = m req (fun r => invoke_handler p (i + 1) r) := by
  intro p i req m h
  obtain ⟨hlt, heq⟩ := List.get?_eq_some.mp h
  rw [invoke_handler_at _ _ _ hlt, heq]

/-- Witness for C7 on the one-probe chain at index 0. -/
theorem c7_dispatch_step_witness :
    invoke_handler [probe] 0 reqPath1 = probe reqPath1 (fun r => invoke_handler [probe] 1 r) :=
  c7_dispatch_step [probe] 0 reqPath1 probe rfl

/-- Claim C8: in a chain made of wrapping middleware that each delegate exactly
once (forwarding a possibly rewritten request and returning the continuation's
result verbatim), followed by a terminal `Handle` at position `k` and anything
after it, dispatch returns exactly the terminal's result, and the middleware
after position `k` are never reached (the result is that of the chain truncated
just past the terminal). -/
theorem c8_first_terminal_wins :
    ∀ (pre post : Pipeline) (t : Request → RState) (req : Request),
      (∀ m ∈ pre, ∃ f : Request → Request, ∀ r next, m r next = next (f r)) →
      ∃ req2,
        Pipeline.handle (pre ++ Handle t :: post) req = t req2
        ∧ Pipeline.handle (pre ++ Handle t :: post) req
            = Pipeline.handle (pre ++ [Handle t]) req := by
  intro pre
  induction pre with
  | nil =>
    intro post t req _
    refine ⟨req, ?_, ?_⟩
    · rw [List.nil_append, handle_cons]
      rfl
    · rw [List.nil_append, List.nil_append, handle_cons, handle_cons]
      rfl
  | cons m pre ih =>
    intro post t req hall
    obtain ⟨f, hf⟩ := hall m (by simp)
    obtain ⟨req2, h1, h2⟩ := ih post t (f req) (fun m2 hm2 => hall m2 (by simp [hm2]))
    refine ⟨req2, ?_, ?_⟩
    · rw [List.cons_append, handle_cons, hf]
      exact h1
    · rw [List.cons_append, List.cons_append, handle_cons, handle_cons, hf, hf]
      exact h2

/-- Witness for C8: pass-through wrapper, then a terminal, then a probe that is
never reached. -/
theorem c8_first_terminal_wins_witness :
    ∃ req2,
      Pipeline.handle
          [passThrough, Handle (fun req => (Except.ok ⟨500, req.path, none⟩, req)), probe]
          reqPath1
        = (fun req => ((Except.ok ⟨500, req.path, none⟩ : IronResult), req)) req2
      ∧ Pipeline.handle
          [passThrough, Handle (fun req => (Except.ok ⟨500, req.path, none⟩, req)), probe]
          reqPath1
        = Pipeline.handle
            [passThrough, Handle (fun req => (Except.ok ⟨500, req.path, none⟩, req))]
            reqPath1 :=
  c8_first_terminal_wins [passThrough] [probe]
    (fun req => (Except.ok ⟨500, req.path, none⟩, req)) reqPath1
    (by
      intro m hm
      rw [List.mem_singleton] at hm
      subst hm
      exact ⟨fun r => r, fun r next => rfl⟩)

/-- Claim C9: the continuation handed to the middleware at index `i` is bound to
index `i + 1 > i`, so every continuation invocation within one dispatch
re-enters the chain strictly further forward. -/
theorem c9_continuation_strictly_forward :
    ∀ (p : Pipeline) (i : Nat) (req : Request) (m : Middleware),
      p.get? i = some m →
        invoke_handler p i req = m req (fun r => invoke_handler p (i + 1) r)
        ∧ i < i + 1 := by
  intro p i req m h
  obtain ⟨hlt, heq⟩ := List.get?_eq_some.mp h
  exact ⟨by rw [invoke_handler_at _ _ _ hlt, heq], Nat.lt_succ_self i⟩

/-- Witness for C9 on the one-probe chain at index 0. -/
theorem c9_continuation_strictly_forward_witness :
    invoke_handler [probe] 0 reqPath1 = probe reqPath1 (fun r => invoke_handler [probe] 1 r)
    ∧ 0 < 1 :=
  c9_continuation_strictly_forward [probe] 0 reqPath1 probe rfl

end IronPipeline
